import Mathlib

/-
Verification of the terminal half-block renderer in TiWo2012/Clon
(src/src/main.cpp, POSIX build).  The C++ program is shallowly embedded:
pure functions become Lean functions, the canvas becomes a total function
from (row, column) to the stored packed int, the raw-input decoder's
while-loop becomes a recursive function on the pending byte list, and the
ANSI frame emitted by drawBuff becomes a list of output tokens, one token
per append the source performs.  Machine ints are modelled as Int with
C truncating division (Int.tdiv / Int.tmod) where division occurs.
-/

namespace Clon

/-- `struct Color { unsigned char r, g, b; }` — three 8-bit channels. -/
structure Color where
  r : Fin 256
  g : Fin 256
  b : Fin 256

/-- `int compactColor(const Color c) { return c.r * 1000000 + c.g * 1000 + c.b; }`
(the unsigned chars are promoted to int; values are 0..255 so no overflow). -/
def compactColor (c : Color) : Int :=
  (c.r.val : Int) * 1000000 + (c.g.val : Int) * 1000 + (c.b.val : Int)

/-- `unpackColor(int packed, int &r, int &g, int &b)`:
`r = packed / 1000000; g = (packed / 1000) % 1000; b = packed % 1000;`
with C `/` and `%` on int, i.e. truncation toward zero (Int.tdiv, Int.tmod). -/
def unpackColor (packed : Int) : Int × Int × Int :=
  (Int.tdiv packed 1000000, Int.tmod (Int.tdiv packed 1000) 1000, Int.tmod packed 1000)

/-- `using screen = std::array<std::array<int, 300>, 300>;` — modelled as a total
function from (row y, column x) to the stored packed int; only indices in
[0,300) x [0,300) correspond to real cells. -/
abbrev Screen := Int → Int → Int

/-- `drawPixel(screen &buff, const int x, const int y, const Color c)`:
bounds-checked write `buff[y][x] = compactColor(c)`; out of range is a no-op.
The source compares against `buff[0].size()` = 300 and `buff.size()` = 300. -/
def drawPixel (buff : Screen) (x y : Int) (c : Color) : Screen :=
  if x < 0 ∨ y < 0 ∨ 300 ≤ x ∨ 300 ≤ y then buff
  else fun y' x' => if y' = y ∧ x' = x then compactColor c else buff y' x'

/-- The `KeyType` / `KeyEvent` variant of the source: a literal character
(byte) or one of the fixed symbolic keys. -/
inductive Key where
  | char (c : Nat)
  | enter
  | escape
  | up
  | down
  | left
  | right
  | backspace
  | tab
  | unknown
  deriving DecidableEq, Repr

/-- The decode while-loop of the POSIX `pollInput`, acting on the pending byte
queue (`inputBuffer`).  Bytes are 27 = ESC, 91 = osb, 13 = CR, 10 = LF,
8 = BS, 127 = DEL, 9 = TAB, 65..68 = A..D.  Returns the decoded key events in
order together with the bytes left in the queue.  When the front is ESC and
fewer than two bytes follow, or the byte after ESC is not 91, the source
pushes the ESC back to the front and breaks. -/
def pollLoop : List Nat → List Key × List Nat
  | [] => ([], [])
  | c :: rest =>
    if c = 27 then
      match rest with
      | b1 :: b2 :: rest2 =>
        if b1 = 91 then
          let k := if b2 = 65 then Key.up
                   else if b2 = 66 then Key.down
                   else if b2 = 67 then Key.right
                   else if b2 = 68 then Key.left
                   else Key.unknown
          let r := pollLoop rest2
          (k :: r.1, r.2)
        else ([], c :: rest)
      | _ => ([], c :: rest)
    else
      let k := if c = 13 ∨ c = 10 then Key.enter
               else if c = 8 ∨ c = 127 then Key.backspace
               else if c = 9 then Key.tab
               else Key.char c
      let r := pollLoop rest
      (k :: r.1, r.2)

/-- `pollInput()` (POSIX): the non-blocking `read` appends `newBytes` to the
pending queue, then the decode loop runs.  Result: (events this call, queue
left for the next call). -/
def pollInput (pending newBytes : List Nat) : List Key × List Nat :=
  pollLoop (pending ++ newBytes)

/-- One output token of the ANSI frame built by the POSIX `drawBuff`; each
constructor corresponds to one append the source performs:
`clearHome` = the leading "ESC[H ESC[J" write, `bg c` = one "ESC[48;2;R;G;Bm"
SGR sequence, `fg c` = one "ESC[38;2;R;G;Bm" SGR sequence, `glyph` = one
UTF-8 lower-half-block, `rowEnd` = the "ESC[0m" reset plus newline. -/
inductive Tok where
  | clearHome
  | bg (c : Int × Int × Int)
  | fg (c : Int × Int × Int)
  | glyph
  | rowEnd
  deriving DecidableEq, Repr

/-- The sentinel (-1,-1,-1) the source stores in lastUR/lastUG/lastUB and
lastLR/lastLG/lastLB before each row scan. -/
def noColor : Int × Int × Int := (-1, -1, -1)

/-- The inner x-loop of the POSIX `drawBuff` for one row pair: for each cell,
unpack the upper pixel (row py) and lower pixel (row py+1); emit a background
SGR only when the upper color differs from the tracked last background, a
foreground SGR only when the lower color differs from the tracked last
foreground, then the half-block glyph; the tracked colors are updated when
they are (re-)emitted, exactly as in the source. -/
def drawCells (pix : Screen) (py : Int) : List Int → Int × Int × Int → Int × Int × Int → List Tok
  | [], _, _ => []
  | x :: xs, lastU, lastL =>
    let u := unpackColor (pix py x)
    let l := unpackColor (pix (py + 1) x)
    (if u = lastU then [] else [Tok.bg u]) ++
      (if l = lastL then [] else [Tok.fg l]) ++
      Tok.glyph :: drawCells pix py xs (if u = lastU then lastU else u) (if l = lastL then lastL else l)

/-- The POSIX `drawBuff`: clear + home, then
`cellHeight = min(pixelBuff.size()/2, termH)` rows and
`cellWidth = min(pixelBuff[0].size(), termW)` columns; each row scans cells
with the tracked colors starting at the (-1,-1,-1) sentinel (the source
resets them to -1 at the end of every row) and ends with the reset+newline.
termW and termH are the values the source read from the winsize struct
(ws_col, ws_row: unsigned short, hence Nat). -/
def drawBuff (pix : Screen) (termW termH : Nat) : List Tok :=
  let cellHeight := min (300 / 2) termH
  let cellWidth := min 300 termW
  Tok.clearHome ::
    (List.range cellHeight).flatMap fun y =>
      drawCells pix (2 * (y : Int)) ((List.range cellWidth).map Int.ofNat) noColor noColor
        ++ [Tok.rowEnd]

/-- Number of half-block glyphs in an emitted frame (one per rendered cell). -/
def glyphCount : List Tok → Nat
  | [] => 0
  | Tok.glyph :: ts => glyphCount ts + 1
  | _ :: ts => glyphCount ts

/-- Number of SGR color sequences (background or foreground) in an emitted
frame. -/
def sgrCount : List Tok → Nat
  | [] => 0
  | Tok.bg _ :: ts => sgrCount ts + 1
  | Tok.fg _ :: ts => sgrCount ts + 1
  | _ :: ts => sgrCount ts

/-- A canvas cleared to the single color c. -/
def uniformCanvas (c : Color) : Screen := fun _ _ => compactColor c

/-- The winsize fields the POSIX `getTerminalSize` reads (ws_col, ws_row are
unsigned short). -/
structure Winsize where
  ws_col : Nat
  ws_row : Nat
  deriving DecidableEq, Repr

/-- `getTerminalSize` (POSIX): if the TIOCGWINSZ ioctl fails the function
returns false without touching w/h (no default substituted); otherwise it
reports (ws_col, ws_row).  The ioctl outcome is the parameter. -/
def getTerminalSize (ioctlResult : Option Winsize) : Option (Nat × Nat) :=
  match ioctlResult with
  | none => none
  | some ws => some (ws.ws_col, ws.ws_row)

/-- Observable effects of one iteration of the main while-loop. -/
structure TickOut where
  polled : Bool
  presented : Bool
  paced : Bool
  keepRunning : Bool
  pending : List Nat
  deriving DecidableEq, Repr

/-- The part of the loop body after the size guard: `pollInput()` (an Escape
key event sets running = false), then `drawBuff`, then `limitFPS(15)`. -/
def tickBody (pending newBytes : List Nat) : TickOut :=
  let r := pollInput pending newBytes
  ⟨true, true, true, !(r.1.contains Key.escape), r.2⟩

/-- One iteration of `while (running == true)` in `main`:
if `getTerminalSize` succeeds and termW < 300, `continue`;
if it succeeds and termH < 150, `continue`;
otherwise (including when the size query fails) run the body:
poll input, draw, pace. -/
def tick (sizeResult : Option Winsize) (pending newBytes : List Nat) : TickOut :=
  match getTerminalSize sizeResult with
  | some (w, h) =>
    if w < 300 then ⟨false, false, false, true, pending⟩
    else if h < 150 then ⟨false, false, false, true, pending⟩
    else tickBody pending newBytes
  | none => tickBody pending newBytes

/-- Modelled from the spec: no `drawLine` exists under src/ (spec section 4.1
describes it).  steps = max(|x1-x0|, |y1-y0|); if steps = 0 this is a single
`setPixel(x0,y0,color)`; otherwise for i in 0..=steps it writes the pixel at
`(x0 + round_toward_zero(i*(x1-x0)/steps), y0 + round_toward_zero(i*(y1-y0)/steps))`
through the same bounds check as setPixel (drawPixel). -/
def drawLine (buff : Screen) (x0 y0 x1 y1 : Int) (c : Color) : Screen :=
  let steps : Nat := max (x1 - x0).natAbs (y1 - y0).natAbs
  if steps = 0 then drawPixel buff x0 y0 c
  else
    (List.range (steps + 1)).foldl
      (fun b (i : Nat) =>
        drawPixel b (x0 + Int.tdiv ((i : Int) * (x1 - x0)) (steps : Int))
          (y0 + Int.tdiv ((i : Int) * (y1 - y0)) (steps : Int)) c)
      buff

/-- The all-zero canvas (`new screen{}` value-initializes every cell to 0). -/
def zeroScreen : Screen := fun _ _ => 0

/-- A canvas that agrees with zeroScreen on rows 0..1 and columns 0..1 and
differs elsewhere (used to witness the clipping of drawBuff reads). -/
def cornerScreen : Screen := fun y x => if 2 ≤ y ∨ 2 ≤ x then 7 else 0

/-- A sample color. -/
def red : Color := ⟨255, 0, 0⟩

/- ------------------------------------------------------------------ -/
/- Helper lemmas (shared)                                              -/
/- ------------------------------------------------------------------ -/

theorem unpackColor_compactColor (c : Color) :
    unpackColor (compactColor c) = ((c.r.val : Int), (c.g.val : Int), (c.b.val : Int)) := by
  obtain ⟨⟨r, hr⟩, ⟨g, hg⟩, ⟨b, hb⟩⟩ := c
  simp only [unpackColor, compactColor]
  have h0 : (0 : Int) ≤ (r : Int) * 1000000 + (g : Int) * 1000 + (b : Int) := by positivity
  have h1 : (0 : Int) ≤ ((r : Int) * 1000000 + (g : Int) * 1000 + (b : Int)) / 1000 :=
    Int.ediv_nonneg h0 (by norm_num)
  rw [Int.tdiv_eq_ediv h0 (by norm_num), Int.tmod_eq_emod h0 (by norm_num),
    Int.tdiv_eq_ediv h0 (by norm_num), Int.tmod_eq_emod h1 (by norm_num)]
  simp only [Prod.mk.injEq]
  refine ⟨by omega, by omega, by omega⟩

theorem drawPixel_oob (buff : Screen) (x y : Int) (c : Color)
    (h : x < 0 ∨ y < 0 ∨ 300 ≤ x ∨ 300 ≤ y) : drawPixel buff x y c = buff := by
  simp [drawPixel, h]

theorem drawPixel_self (buff : Screen) (x y : Int) (c : Color)
    (hx0 : 0 ≤ x) (hx1 : x < 300) (hy0 : 0 ≤ y) (hy1 : y < 300) :
    drawPixel buff x y c y x = compactColor c := by
  have hcond : ¬(x < 0 ∨ y < 0 ∨ 300 ≤ x ∨ 300 ≤ y) := by omega
  simp [drawPixel, hcond]

theorem drawPixel_other (buff : Screen) (x y : Int) (c : Color) (y' x' : Int)
    (h : ¬(y' = y ∧ x' = x)) : drawPixel buff x y c y' x' = buff y' x' := by
  by_cases hcond : x < 0 ∨ y < 0 ∨ 300 ≤ x ∨ 300 ≤ y
  · simp [drawPixel, hcond]
  · simp [drawPixel, hcond, h]

theorem drawPixel_writes (buff : Screen) (x y : Int) (c : Color) (p q : Int) :
    drawPixel buff x y c p q = buff p q ∨ drawPixel buff x y c p q = compactColor c := by
  by_cases hcond : x < 0 ∨ y < 0 ∨ 300 ≤ x ∨ 300 ≤ y
  · left; simp [drawPixel, hcond]
  · by_cases hpq : p = y ∧ q = x
    · right; simp [drawPixel, hcond, hpq]
    · left; simp [drawPixel, hcond, hpq]

theorem pollLoop_no_escape (bytes : List Nat) : Key.escape ∉ (pollLoop bytes).1 := by
  induction bytes using pollLoop.induct with
  | case1 => simp [pollLoop]
  | case2 b2 rest2 ih =>
    rw [pollLoop.eq_def]
    intro hmem
    rcases List.mem_cons.mp hmem with h | h
    · split_ifs at h
    · exact ih h
  | case3 b1 b2 rest2 hb =>
    rw [pollLoop.eq_def]
    simp [hb]
  | case4 rest hshape =>
    match rest, hshape with
    | [], _ => simp [pollLoop]
    | [b], _ => rw [pollLoop.eq_def]; simp
    | b1 :: b2 :: rest2, hshape => exact absurd rfl (hshape b1 b2 rest2)
  | case5 c rest hc ih =>
    rw [pollLoop.eq_def]
    simp only [hc, if_false, ite_false]
    intro hmem
    rcases List.mem_cons.mp hmem with h | h
    · split_ifs at h
    · exact ih h

theorem glyphCount_append (a b : List Tok) :
    glyphCount (a ++ b) = glyphCount a + glyphCount b := by
  induction a with
  | nil => simp [glyphCount]
  | cons t ts ih => cases t <;> (simp [glyphCount, ih]; try omega)

theorem sgrCount_append (a b : List Tok) :
    sgrCount (a ++ b) = sgrCount a + sgrCount b := by
  induction a with
  | nil => simp [sgrCount]
  | cons t ts ih => cases t <;> (simp [sgrCount, ih]; try omega)

theorem drawCells_glyphCount (pix : Screen) (py : Int) (xs : List Int) :
    ∀ u l, glyphCount (drawCells pix py xs u l) = xs.length := by
  induction xs with
  | nil => intro u l; simp [drawCells, glyphCount]
  | cons x xs ih =>
    intro u l
    simp only [drawCells]
    rw [glyphCount_append, glyphCount_append]
    split_ifs <;> simp [glyphCount, ih]

theorem drawCells_congr (pix pix' : Screen) (py : Int) (xs : List Int)
    (h : ∀ x ∈ xs, pix py x = pix' py x ∧ pix (py + 1) x = pix' (py + 1) x) :
    ∀ u l, drawCells pix py xs u l = drawCells pix' py xs u l := by
  induction xs with
  | nil => intro u l; rfl
  | cons x xs ih =>
    intro u l
    have hx := h x (List.mem_cons_self x xs)
    have hxs : ∀ x' ∈ xs, pix py x' = pix' py x' ∧ pix (py + 1) x' = pix' (py + 1) x' :=
      fun x' hx' => h x' (List.mem_cons_of_mem x hx')
    simp only [drawCells, hx.1, hx.2]
    rw [ih hxs]

theorem drawCells_uniform_zero (c : Color) (py : Int) (xs : List Int) :
    sgrCount (drawCells (uniformCanvas c) py xs
      (unpackColor (compactColor c)) (unpackColor (compactColor c))) = 0 := by
  induction xs with
  | nil => simp [drawCells, sgrCount]
  | cons x xs ih =>
    simp only [drawCells, uniformCanvas]
    simp [sgrCount_append, sgrCount, ih]

theorem drawCells_uniform_le (c : Color) (py : Int) (xs : List Int) (u l : Int × Int × Int) :
    sgrCount (drawCells (uniformCanvas c) py xs u l) ≤ 2 := by
  cases xs with
  | nil => simp [drawCells, sgrCount]
  | cons x xs =>
    have hz := drawCells_uniform_zero c py xs
    simp only [drawCells, uniformCanvas] at hz ⊢
    split_ifs with h1 h2 h2 <;>
      simp_all [sgrCount_append, sgrCount]

theorem flatMap_congr_mem {α β : Type} (l : List α) (f g : α → List β)
    (h : ∀ a ∈ l, f a = g a) : l.flatMap f = l.flatMap g := by
  induction l with
  | nil => rfl
  | cons a l ih =>
    simp only [List.flatMap_cons]
    rw [h a (List.mem_cons_self a l), ih fun a' ha' => h a' (List.mem_cons_of_mem a ha')]

theorem glyphCount_rows (pix : Screen) (cellW : Nat) (n : Nat) :
    glyphCount ((List.range n).flatMap fun y =>
      drawCells pix (2 * (y : Int)) ((List.range cellW).map Int.ofNat) noColor noColor
        ++ [Tok.rowEnd]) = n * cellW := by
  induction n with
  | zero => simp [glyphCount]
  | succ n ih =>
    rw [List.range_succ, List.flatMap_append, glyphCount_append, ih]
    simp only [List.flatMap_cons, List.flatMap_nil, List.append_nil]
    rw [glyphCount_append, drawCells_glyphCount]
    have h1 : ((List.range cellW).map Int.ofNat).length = cellW := by
      rw [List.length_map, List.length_range]
    have h2 : glyphCount [Tok.rowEnd] = 0 := rfl
    rw [h1, h2]
    ring

theorem sgrCount_rows_uniform (c : Color) (cellW : Nat) (n : Nat) :
    sgrCount ((List.range n).flatMap fun y =>
      drawCells (uniformCanvas c) (2 * (y : Int)) ((List.range cellW).map Int.ofNat)
        noColor noColor ++ [Tok.rowEnd]) ≤ 2 * n := by
  induction n with
  | zero => simp [sgrCount]
  | succ n ih =>
    rw [List.range_succ, List.flatMap_append, sgrCount_append]
    simp only [List.flatMap_cons, List.flatMap_nil, List.append_nil]
    rw [sgrCount_append]
    have hrow := drawCells_uniform_le c (2 * (n : Int))
      ((List.range cellW).map Int.ofNat) noColor noColor
    have : sgrCount [Tok.rowEnd] = 0 := rfl
    omega

theorem foldl_drawPixel_preserves (c : Color) (fx fy : Nat → Int) (l : List Nat) :
    ∀ (b : Screen) (p q : Int), b p q = compactColor c →
      (l.foldl (fun b i => drawPixel b (fx i) (fy i) c) b) p q = compactColor c := by
  induction l with
  | nil => intro b p q h; simpa using h
  | cons i l ih =>
    intro b p q h
    simp only [List.foldl_cons]
    apply ih
    rcases drawPixel_writes b (fx i) (fy i) c p q with hw | hw
    · rw [hw]; exact h
    · exact hw

/- ------------------------------------------------------------------ -/
/- Claim theorems                                                      -/
/- ------------------------------------------------------------------ -/

/-- C1: for every r, g, b each in [0,255] (the whole Fin 256 domain),
unpacking the packed integer r*1000000 + g*1000 + b recovers exactly the
original triple: `unpackColor (compactColor c) = (r, g, b)`. -/
theorem compactColor_unpackColor_roundtrip (c : Color) :
    unpackColor (compactColor c) = ((c.r.val : Int), (c.g.val : Int), (c.b.val : Int)) :=
  unpackColor_compactColor c

/-- C2: fed the single byte ESC (0x1B), poll returns no key events and keeps
the ESC pending; the next poll fed the bytes osb and A returns exactly one
Up event — decoding resumes across the two calls. -/
theorem pollInput_split_escape_sequence :
    pollInput [] [27] = ([], [27]) ∧ pollInput [27] [91, 65] = ([Key.up], []) := by
  exact ⟨by decide, by decide⟩

/-- C3: for x or y outside [0,300) x [0,300), drawPixel leaves the whole
canvas unchanged (silent no-op); for in-range x, y it overwrites exactly the
cell (x,y) — read back at (row y, column x) — with the packed color, leaving
every other cell unchanged. -/
theorem drawPixel_bounds_spec (buff : Screen) (x y : Int) (c : Color) :
    ((x < 0 ∨ y < 0 ∨ 300 ≤ x ∨ 300 ≤ y) → drawPixel buff x y c = buff)
    ∧ (0 ≤ x → x < 300 → 0 ≤ y → y < 300 →
        drawPixel buff x y c y x = compactColor c
          ∧ ∀ y' x', ¬(y' = y ∧ x' = x) → drawPixel buff x y c y' x' = buff y' x') :=
  ⟨drawPixel_oob buff x y c,
   fun hx0 hx1 hy0 hy1 =>
     ⟨drawPixel_self buff x y c hx0 hx1 hy0 hy1,
      fun y' x' h => drawPixel_other buff x y c y' x' h⟩⟩

/-- Witness for C3 at concrete inputs: (500,3) is out of range and a no-op;
(2,3) is in range, the written cell reads back the packed color and the cell
(7,7) is untouched. -/
theorem drawPixel_bounds_spec_witness :
    drawPixel zeroScreen 500 3 red = zeroScreen
      ∧ drawPixel zeroScreen 2 3 red 3 2 = compactColor red
      ∧ drawPixel zeroScreen 2 3 red 7 7 = zeroScreen 7 7 :=
  ⟨(drawPixel_bounds_spec zeroScreen 500 3 red).1 (by decide),
   ((drawPixel_bounds_spec zeroScreen 2 3 red).2 (by decide) (by decide) (by decide)
     (by decide)).1,
   ((drawPixel_bounds_spec zeroScreen 2 3 red).2 (by decide) (by decide) (by decide)
     (by decide)).2 7 7 (by decide)⟩

/-- C4 fails on the code: when `getTerminalSize` succeeds and reports a
terminal below the minimum (here 100 x 100), the loop body hits `continue`
before `limitFPS(15)`, so the Waiting tick is NOT paced (the loop busy-spins);
pacing does run on ticks that render (size ok or size query failed).  This
contradicts the claim that pacing is applied on every tick in every state;
the sibling programs in the repository pace that branch, so the omission is
a slip of the code. -/
theorem tick_waiting_skips_pacing :
    (tick (some ⟨100, 100⟩) [] []).paced = false
      ∧ (tick (some ⟨300, 150⟩) [] []).paced = true
      ∧ (tick none [] []).paced = true := by
  exact ⟨by decide, by decide, by decide⟩

/-- C5 counterexample: the claim says a failed terminal-size query drives the
tick into Waiting with rendering skipped, but in the code a failed query
falls through the guard and the tick still presents the canvas. -/
theorem tick_query_failure_still_presents :
    (tick none [] []).presented = true := by decide

/-- C5 as amended: when the size query succeeds and reports columns < 300 or
rows < 150 the tick skips rendering (Waiting); `getTerminalSize` reports a
failed query to its caller as failure (none) with no default substituted;
but when the query fails the main loop proceeds to render that tick. -/
theorem tick_waiting_amended (w h : Nat) (pending newBytes : List Nat) :
    ((w < 300 ∨ h < 150) → (tick (some ⟨w, h⟩) pending newBytes).presented = false)
    ∧ getTerminalSize none = none
    ∧ (tick none pending newBytes).presented = true := by
  refine ⟨?_, rfl, rfl⟩
  intro hwh
  by_cases hw : w < 300
  · simp [tick, getTerminalSize, hw]
  · have hh : h < 150 := by omega
    simp [tick, getTerminalSize, hw, hh]

/-- Witness for C5 (amended) at a concrete input: terminal reported 100 x 100
skips rendering; a failed query reports none and the tick still presents. -/
theorem tick_waiting_amended_witness :
    (tick (some ⟨100, 100⟩) [] []).presented = false
      ∧ getTerminalSize none = none
      ∧ (tick none [] []).presented = true :=
  ⟨(tick_waiting_amended 100 100 [] []).1 (Or.inl (by decide)),
   (tick_waiting_amended 100 100 [] []).2.1,
   (tick_waiting_amended 100 100 [] []).2.2⟩

/-- C6: for every canvas and reported terminal size, drawBuff emits exactly
min(300, columns) * min(300/2, rows) half-block glyphs — one per rendered
cell — and reads no canvas cell outside rows [0, 2*min(150, rows)) and
columns [0, min(300, columns)): two canvases agreeing there yield the
identical frame. -/
theorem drawBuff_clipping (termW termH : Nat) :
    (∀ pix : Screen,
      glyphCount (drawBuff pix termW termH) = min 300 termW * min 150 termH)
    ∧ (∀ pix pix' : Screen,
        (∀ y x : Int, 0 ≤ y → y < 2 * ((min 150 termH : Nat) : Int) →
          0 ≤ x → x < ((min 300 termW : Nat) : Int) → pix y x = pix' y x) →
        drawBuff pix termW termH = drawBuff pix' termW termH) := by
  have h32 : (300 : Nat) / 2 = 150 := rfl
  constructor
  · intro pix
    have h := glyphCount_rows pix (min 300 termW) (min (300 / 2) termH)
    simp only [drawBuff]
    have hch : ∀ ts, glyphCount (Tok.clearHome :: ts) = glyphCount ts := fun ts => rfl
    rw [hch, h, h32, Nat.mul_comm]
  · intro pix pix' hagree
    simp only [drawBuff]
    congr 1
    apply flatMap_congr_mem
    intro y hy
    have hylt : y < min (300 / 2) termH := List.mem_range.mp hy
    rw [h32] at hylt
    have hrow : ∀ x ∈ (List.range (min 300 termW)).map Int.ofNat,
        pix (2 * (y : Int)) x = pix' (2 * (y : Int)) x
          ∧ pix (2 * (y : Int) + 1) x = pix' (2 * (y : Int) + 1) x := by
      intro x hx
      obtain ⟨k, hk, rfl⟩ := List.mem_map.mp hx
      have hklt : k < min 300 termW := List.mem_range.mp hk
      simp only [Int.ofNat_eq_natCast]
      constructor
      · apply hagree <;> omega
      · apply hagree <;> omega
    rw [drawCells_congr pix pix' _ _ hrow]

/-- Witness for C6 at terminal size 2 x 1: the frame holds exactly 2 glyphs,
and replacing every canvas cell outside rows 0..1 / columns 0..1 leaves the
emitted frame identical. -/
theorem drawBuff_clipping_witness :
    glyphCount (drawBuff zeroScreen 2 1) = min 300 2 * min 150 1
      ∧ drawBuff zeroScreen 2 1 = drawBuff cornerScreen 2 1 :=
  ⟨(drawBuff_clipping 2 1).1 zeroScreen,
   (drawBuff_clipping 2 1).2 zeroScreen cornerScreen (by
     intro y x hy0 hy1 hx0 hx1
     have hm1 : ((min 150 1 : Nat) : Int) = 1 := by norm_num
     have hm2 : ((min 300 2 : Nat) : Int) = 2 := by norm_num
     rw [hm1] at hy1
     rw [hm2] at hx1
     simp only [zeroScreen, cornerScreen]
     rw [if_neg (by omega)])⟩

/-- C7: a background (resp. foreground) SGR is emitted for a cell only when
that color differs from the tracked last color, and the state passed to the
next cell is exactly this cell's colors — so within a row scan a cell's SGRs
appear iff they differ from the immediately preceding cell's, each row
restarting from the sentinel; consequently a uniform-color canvas rendered
at least 2 cells wide and 1 cell tall emits strictly fewer SGR sequences
than one background/foreground pair per rendered cell. -/
theorem sgr_elision_spec :
    (∀ (pix : Screen) (py : Int) (u l : Int × Int × Int) (x : Int) (xs : List Int),
      drawCells pix py (x :: xs) u l =
        (if unpackColor (pix py x) = u then [] else [Tok.bg (unpackColor (pix py x))]) ++
          (if unpackColor (pix (py + 1) x) = l then []
            else [Tok.fg (unpackColor (pix (py + 1) x))]) ++
          Tok.glyph ::
            drawCells pix py xs (unpackColor (pix py x)) (unpackColor (pix (py + 1) x)))
    ∧ (∀ (c : Color) (termW termH : Nat), 2 ≤ min 300 termW → 1 ≤ min 150 termH →
        sgrCount (drawBuff (uniformCanvas c) termW termH)
          < 2 * (min 300 termW * min 150 termH)) := by
  constructor
  · intro pix py u l x xs
    simp only [drawCells]
    have h1 : (if unpackColor (pix py x) = u then u else unpackColor (pix py x))
        = unpackColor (pix py x) := by
      split_ifs with h
      · exact h.symm
      · rfl
    have h2 : (if unpackColor (pix (py + 1) x) = l then l else unpackColor (pix (py + 1) x))
        = unpackColor (pix (py + 1) x) := by
      split_ifs with h
      · exact h.symm
      · rfl
    rw [h1, h2]
  · intro c termW termH hW hH
    have h32 : (300 : Nat) / 2 = 150 := rfl
    have hrows := sgrCount_rows_uniform c (min 300 termW) (min (300 / 2) termH)
    simp only [drawBuff]
    have hch : ∀ ts, sgrCount (Tok.clearHome :: ts) = sgrCount ts := fun ts => rfl
    rw [hch]
    refine lt_of_le_of_lt hrows ?_
    rw [h32]
    have hmul : 2 * min 150 termH ≤ min 300 termW * min 150 termH :=
      Nat.mul_le_mul_right _ hW
    omega

/-- Witness for C7: on the all-zero canvas a first cell emits one background
and one foreground SGR then the glyph; a uniform red canvas rendered 2 x 1
emits fewer than 4 SGR sequences. -/
theorem sgr_elision_spec_witness :
    drawCells zeroScreen 0 [0] noColor noColor = [Tok.bg (0, 0, 0), Tok.fg (0, 0, 0), Tok.glyph]
      ∧ sgrCount (drawBuff (uniformCanvas red) 2 1) < 4 :=
  ⟨Eq.trans (sgr_elision_spec.1 zeroScreen 0 noColor noColor 0 []) (by decide),
   lt_of_lt_of_eq (sgr_elision_spec.2 red 2 1 (by decide) (by decide)) (by decide)⟩

/-- C8: the decoder maps each consumed byte by the fixed table — CR (13) or
LF (10) to Enter, BS (8) or DEL (127) to Backspace, TAB (9) to Tab, ESC then
91 then A/B/C/D (65..68) to Up/Down/Right/Left, ESC then 91 then any other byte
to exactly one Unknown (e.g. Z = 90), any other byte to a literal-character
event — and events come out in input-byte order (the event of the leading
byte(s) precedes those of the remaining bytes). -/
theorem pollInput_event_table (rest : List Nat) :
    (∀ c, c ≠ 27 →
      pollLoop (c :: rest) =
        ((if c = 13 ∨ c = 10 then Key.enter
          else if c = 8 ∨ c = 127 then Key.backspace
          else if c = 9 then Key.tab
          else Key.char c) :: (pollLoop rest).1, (pollLoop rest).2))
    ∧ (∀ b2, pollLoop (27 :: 91 :: b2 :: rest) =
        ((if b2 = 65 then Key.up
          else if b2 = 66 then Key.down
          else if b2 = 67 then Key.right
          else if b2 = 68 then Key.left
          else Key.unknown) :: (pollLoop rest).1, (pollLoop rest).2))
    ∧ pollInput [] [27, 91, 90] = ([Key.unknown], []) := by
  refine ⟨?_, ?_, by decide⟩
  · intro c hc
    rw [pollLoop.eq_def]
    simp only [hc, if_false, ite_false]
  · intro b2
    rw [pollLoop.eq_def]
    simp

/-- Witness for C8: the byte 97 decodes to the literal character 97; the
sequence ESC, 91, 66 decodes to Down. -/
theorem pollInput_event_table_witness :
    pollLoop [97] = ([Key.char 97], []) ∧ pollLoop [27, 91, 66] = ([Key.down], []) :=
  ⟨Eq.trans ((pollInput_event_table []).1 97 (by decide)) (by decide),
   Eq.trans ((pollInput_event_table []).2.1 66) (by decide)⟩

/-- C10: with ESC (27) at the front of the queue, if fewer than two bytes
follow or the byte after the ESC is not 91, the decode loop stops right
there: no events from that point and the ESC with everything after it stays
queued; moreover poll never returns an Escape key event from the byte
stream. -/
theorem pollLoop_incomplete_escape (rest pending newBytes : List Nat) :
    ((rest.length < 2 ∨ rest.head? ≠ some 91) → pollLoop (27 :: rest) = ([], 27 :: rest))
    ∧ Key.escape ∉ (pollInput pending newBytes).1 := by
  constructor
  · intro h
    match rest with
    | [] => rfl
    | [b] => rfl
    | b1 :: b2 :: rest2 =>
      have hb1 : b1 ≠ 91 := by
        rcases h with h | h
        · simp only [List.length_cons] at h; omega
        · simpa using h
      rw [pollLoop.eq_def]
      simp [hb1]
  · exact pollLoop_no_escape _

/-- Witness for C10: ESC followed by a single 91 stays queued and produces
no event; the corresponding poll yields no Escape event. -/
theorem pollLoop_incomplete_escape_witness :
    pollLoop [27, 91] = ([], [27, 91]) ∧ Key.escape ∉ (pollInput [27] [91]).1 :=
  ⟨(pollLoop_incomplete_escape [91] [27] [91]).1 (by decide),
   (pollLoop_incomplete_escape [91] [27] [91]).2⟩

/-- C9 (drawLine modelled from the spec, absent from src/): with identical
endpoints (steps = 0) drawLine equals a single drawPixel of that point; with
distinct endpoints (steps > 0), both endpoints in range, the final canvas
holds the given packed color at both endpoints. -/
theorem drawLine_spec (buff : Screen) (x0 y0 x1 y1 : Int) (c : Color) :
    drawLine buff x0 y0 x0 y0 c = drawPixel buff x0 y0 c
    ∧ (¬(x1 = x0 ∧ y1 = y0) →
        0 ≤ x0 → x0 < 300 → 0 ≤ y0 → y0 < 300 → 0 ≤ x1 → x1 < 300 → 0 ≤ y1 → y1 < 300 →
        drawLine buff x0 y0 x1 y1 c y0 x0 = compactColor c
          ∧ drawLine buff x0 y0 x1 y1 c y1 x1 = compactColor c) := by
  constructor
  · simp [drawLine]
  · intro hne hx00 hx01 hy00 hy01 hx10 hx11 hy10 hy11
    have hs0 : max (x1 - x0).natAbs (y1 - y0).natAbs ≠ 0 := by
      intro h
      rw [Nat.max_eq_zero_iff] at h
      obtain ⟨h1, h2⟩ := h
      rw [Int.natAbs_eq_zero, sub_eq_zero] at h1 h2
      exact hne ⟨h1, h2⟩
    simp only [drawLine, if_neg hs0]
    set steps := max (x1 - x0).natAbs (y1 - y0).natAbs with hsteps
    constructor
    · rw [List.range_succ_eq_map]
      simp only [List.foldl_cons, Nat.cast_zero, zero_mul, Int.zero_tdiv, add_zero]
      exact foldl_drawPixel_preserves c _ _ _ _ y0 x0
        (drawPixel_self buff x0 y0 c hx00 hx01 hy00 hy01)
    · rw [List.range_succ, List.foldl_append]
      simp only [List.foldl_cons, List.foldl_nil]
      have hsne : ((steps : Nat) : Int) ≠ 0 := by exact_mod_cast hs0
      rw [Int.mul_tdiv_cancel_left _ hsne, Int.mul_tdiv_cancel_left _ hsne]
      have hx : x0 + (x1 - x0) = x1 := by ring
      have hy : y0 + (y1 - y0) = y1 := by ring
      rw [hx, hy]
      exact drawPixel_self _ x1 y1 c hx10 hx11 hy10 hy11

/-- Witness for C9: drawLine(5,5,5,5) equals setPixel(5,5); drawLine(0,0,10,0)
writes both endpoint pixels with the packed color. -/
theorem drawLine_spec_witness :
    drawLine zeroScreen 5 5 5 5 red = drawPixel zeroScreen 5 5 red
      ∧ drawLine zeroScreen 0 0 10 0 red 0 0 = compactColor red
      ∧ drawLine zeroScreen 0 0 10 0 red 0 10 = compactColor red :=
  ⟨(drawLine_spec zeroScreen 5 5 5 5 red).1,
   ((drawLine_spec zeroScreen 0 0 10 0 red).2 (by decide) (by decide) (by decide) (by decide)
     (by decide) (by decide) (by decide) (by decide) (by decide)).1,
   ((drawLine_spec zeroScreen 0 0 10 0 red).2 (by decide) (by decide) (by decide) (by decide)
     (by decide) (by decide) (by decide) (by decide) (by decide)).2⟩

end Clon
